import Mathlib

/-!
# Survey data processor — verification of the data-map / question-tab core

Shallow embedding of the survey-data-processor repository's core logic:

* the formula reference rewriters used when formulas are copied down
  (`src/setup/data_map.py`, `src/setup/column_question_map.py`, regex
  `([A-Z]+)(\d+)`) and sideways (`src/question_types/single_select_with_other.py`,
  regex `(?<!\$)([A-Z]+)(\$)(\d+)`),
* the data-map marker lookups (`src/data_extractors/data_map_extractor.py`),
* response-option extraction and its generated column-D/E formulas,
* the question-tab classification dispatch (`src/pipeline.py`),
* the column-question-map marker simulation vs. its column-E formula
  (`src/setup/column_question_map.py`),
* the soft-fail external recalculation step (`src/utils/excel_calculator.py`).

Cell values are modelled as `Option String` (absent cell / text content);
character classes are the ASCII classes the Python regexes and the actual
formula strings use.
-/

namespace SurveyProc

/-- ASCII uppercase letter, the class `[A-Z]` of the source's regexes. -/
def isUC (c : Char) : Bool := 'A' ≤ c && c ≤ 'Z'

/-- ASCII decimal digit, the class `\d` as it occurs in the source's
ASCII-only formula strings. -/
def isDg (c : Char) : Bool := '0' ≤ c && c ≤ '9'

/-- ASCII whitespace stripped by Python's `str.strip()` (the values this
repository strips are ASCII). -/
def isWS (c : Char) : Bool := c == ' ' || c == '\t' || c == '\n' || c == '\r'

theorem isDg_not_isUC {c : Char} (h : isDg c = true) : isUC c = false := by
  simp only [isDg, isUC, Bool.and_eq_true, decide_eq_true_eq] at *
  rcases h with ⟨h1, h2⟩
  by_contra hx
  simp only [Bool.not_eq_false, Bool.and_eq_true, decide_eq_true_eq] at hx
  rcases hx with ⟨h3, _⟩
  exact absurd (le_trans h3 h2) (by decide)

theorem isDg_ne_dollar {c : Char} (h : isDg c = true) : c ≠ '$' := by
  rintro rfl; exact absurd h (by decide)

theorem isUC_ne_dollar {c : Char} (h : isUC c = true) : c ≠ '$' := by
  rintro rfl; exact absurd h (by decide)

/-- The decimal digit character for `d < 10` (`'0'`-based). -/
def digitCh (d : Nat) : Char := Char.ofNat (48 + d)

/-- The numeric value the rewriters read back off a digit character
(Python's `int` over a decimal string, digit by digit). -/
def dVal (c : Char) : Nat := c.toNat - 48

theorem dVal_digitCh {d : Nat} (h : d < 10) : dVal (digitCh d) = d := by
  interval_cases d <;> decide

theorem isDg_digitCh {d : Nat} (h : d < 10) : isDg (digitCh d) = true := by
  interval_cases d <;> decide

/-- Decimal digits of `m`, most significant first; `fuel` bounds the
recursion (`fuel ≥ m` is always enough). -/
def natCharsAux : Nat → Nat → List Char
  | 0, _ => []
  | _ + 1, 0 => []
  | fuel + 1, m + 1 => natCharsAux fuel ((m + 1) / 10) ++ [digitCh ((m + 1) % 10)]

/-- The decimal rendering of a natural number, as Python's `str`/f-string
prints a nonnegative `int`. -/
def natChars (n : Nat) : List Char := if n = 0 then ['0'] else natCharsAux n n

/-- Python's `int` over a decimal digit string. -/
def digitsToNat (ds : List Char) : Nat := ds.foldl (fun a c => 10 * a + dVal c) 0

theorem digitsToNat_append (a b : List Char) :
    digitsToNat (a ++ b) = b.foldl (fun a c => 10 * a + dVal c) (digitsToNat a) := by
  simp [digitsToNat, List.foldl_append]

theorem natCharsAux_spec : ∀ (fuel m : Nat), m ≤ fuel →
    digitsToNat (natCharsAux fuel m) = m := by
  intro fuel
  induction fuel with
  | zero => intro m hm; interval_cases m; rfl
  | succ f ih =>
    intro m hm
    match m with
    | 0 => rfl
    | m + 1 =>
      rw [natCharsAux, digitsToNat_append, ih ((m + 1) / 10) (by omega)]
      simp only [List.foldl_cons, List.foldl_nil]
      rw [dVal_digitCh (Nat.mod_lt _ (by omega))]
      omega

theorem digitsToNat_natChars (n : Nat) : digitsToNat (natChars n) = n := by
  by_cases h : n = 0
  · subst h; rfl
  · rw [natChars, if_neg h, natCharsAux_spec n n le_rfl]

theorem natCharsAux_all_digits : ∀ (fuel m : Nat), ∀ c ∈ natCharsAux fuel m, isDg c = true := by
  intro fuel
  induction fuel with
  | zero => intro m c hc; simp [natCharsAux] at hc
  | succ f ih =>
    intro m c hc
    match m with
    | 0 => simp [natCharsAux] at hc
    | m + 1 =>
      rw [natCharsAux] at hc
      rcases List.mem_append.1 hc with h | h
      · exact ih _ _ h
      · simp only [List.mem_singleton] at h
        subst h
        exact isDg_digitCh (Nat.mod_lt _ (by omega))

theorem natChars_all_digits (n : Nat) : ∀ c ∈ natChars n, isDg c = true := by
  intro c hc
  rw [natChars] at hc
  split at hc
  · simp only [List.mem_singleton] at hc; subst hc; decide
  · exact natCharsAux_all_digits _ _ _ hc

theorem natCharsAux_ne_nil (fuel m : Nat) (hf : m ≤ fuel) (hm : m ≠ 0) :
    natCharsAux fuel m ≠ [] := by
  match fuel, m with
  | 0, m => omega
  | f + 1, 0 => omega
  | f + 1, m + 1 => simp [natCharsAux]

theorem natChars_ne_nil (n : Nat) : natChars n ≠ [] := by
  rw [natChars]
  split
  · simp
  · exact natCharsAux_ne_nil n n le_rfl (by assumption)

/-!
## The vertical reference rewriter

`data_map_initial_setup` and `column_question_map_initial_setup` copy a
formula row down with
`re.sub(r'([A-Z]+)(\d+)', replace_row_ref, formula)` where `replace_row_ref`
returns the match unchanged when `'$' in match.group(0)` (which never holds:
the pattern matches letters and digits only) and otherwise reprints the
column letters with `int(row digits) + row_offset`.  `subRowRefs` is that
substitution as a left-to-right scan: at an uppercase letter it attempts the
leftmost-longest match (maximal letter run immediately followed by at least
one digit); on failure it advances one character, exactly as `re` does.
-/

theorem dropWhile_len_le (p : Char → Bool) (l : List Char) :
    (l.dropWhile p).length ≤ l.length :=
  (List.dropWhile_sublist (l := l) (p := p)).length_le

/-- One completed (or input-final) vertical match: `letters` is the pending
uppercase run, `digits` the digit run that followed it.  With an empty digit
run there was no match and the letters pass through; with digits the
replacement function of the source runs: the match is returned unchanged when
it contains `'$'` (the vestigial `'$' in match.group(0)` check, never true for
a letters-digits match) and otherwise the row number is re-printed shifted by
`off` (`int(row) + row_offset`). -/
def flushV (off : Nat) (letters digits : List Char) : List Char :=
  if digits.isEmpty then letters
  else if '$' ∈ letters ++ digits then letters ++ digits
  else letters ++ natChars (digitsToNat digits + off)

/-- Left-to-right scan implementing `re.sub(r'([A-Z]+)(\d+)', replace_row_ref, s)`:
a match is a maximal uppercase-letter run immediately followed by at least one
digit (the regex's leftmost match, `[A-Z]+` and `\d+` both effectively
maximal since backtracking cannot turn a letter into a digit), replaced by
`flushV`; everything else is copied.  `letters`/`digits` hold the partial
match built so far. -/
def goV (off : Nat) (letters digits : List Char) : List Char → List Char
  | [] => flushV off letters digits
  | c :: cs =>
    if digits.isEmpty then
      if isUC c then goV off (letters ++ [c]) [] cs
      else if isDg c && !letters.isEmpty then goV off letters [c] cs
      else letters ++ c :: goV off [] [] cs
    else
      if isDg c then goV off letters (digits ++ [c]) cs
      else
        flushV off letters digits ++
          (if isUC c then goV off [c] [] cs else c :: goV off [] [] cs)

/-- The vertical (copy-down) rewrite of `data_map.py` (rows copied from the
base row 4) and `column_question_map.py` (base row 3): `off` is
`target_row - base_row`. -/
def subRowRefs (off : Nat) (s : List Char) : List Char := goV off [] [] s

/-!
## The horizontal reference rewriter

`cut_single_select_with_other` copies column D's formulas to columns E..N with
`re.sub(r'(?<!\$)([A-Z]+)(\$)(\d+)', adjust_col_ref, formula)`:
a match is a letter run (whose first letter is not preceded by `'$'` —
the negative lookbehind) immediately followed by `'$'` and at least one
digit; `adjust_col_ref` converts the letters to a 1-based column index
(`column_index_from_string`), adds the offset, converts back
(`get_column_letter`), and keeps the `'$'` and the row digits. -/

/-- openpyxl's `column_index_from_string`: bijective base-26 value of an
uppercase letter string (`"A"` is 1, `"Z"` 26, `"AA"` 27, `"JC"` 263). -/
def colIndex (ls : List Char) : Nat := ls.foldl (fun a c => 26 * a + (c.toNat - 64)) 0

/-- Bijective base-26 digits of `n`, most significant first (`fuel ≥ n` is
always enough); `colLetters 264 = "JD"`. -/
def colLettersAux : Nat → Nat → List Char
  | 0, _ => []
  | _ + 1, 0 => []
  | fuel + 1, n + 1 => colLettersAux fuel (n / 26) ++ [Char.ofNat (65 + n % 26)]

/-- openpyxl's `get_column_letter`. -/
def colLetters (n : Nat) : List Char := colLettersAux n n

/-- The replacement of one horizontal match: shift the column letters by
`off`, keep `'$'` and the row digits. -/
def flushH (off : Nat) (letters digits : List Char) : List Char :=
  colLetters (colIndex letters + off) ++ '$' :: digits

/-- Left-to-right scan implementing the horizontal `re.sub`.  State:
`prevD` — whether the previous original character was `'$'` (the negative
lookbehind; a letter run can only start where it is false, so in `$AJC$2`
the run can start at `J` though not at `A`); `letters` — the pending run;
`seenD` — whether the run's `'$'` has been read; `digits` — the digits read
after it. -/
def goH (off : Nat) (prevD : Bool) (letters : List Char) (seenD : Bool)
    (digits : List Char) : List Char → List Char
  | [] =>
    if seenD then
      if digits.isEmpty then letters ++ ['$'] else flushH off letters digits
    else letters
  | c :: cs =>
    if seenD then
      if isDg c then goH off false letters true (digits ++ [c]) cs
      else if digits.isEmpty then
        (letters ++ ['$']) ++ c :: goH off (c == '$') [] false [] cs
      else
        flushH off letters digits ++
          (if isUC c then goH off false [c] false [] cs
           else c :: goH off (c == '$') [] false [] cs)
    else if letters.isEmpty then
      if isUC c && !prevD then goH off false [c] false [] cs
      else c :: goH off (c == '$') [] false [] cs
    else
      if isUC c then goH off false (letters ++ [c]) false [] cs
      else if c == '$' then goH off false letters true [] cs
      else (letters ++ [c]) ++ goH off false [] false [] cs

/-- The horizontal (copy-sideways) rewrite of
`cut_single_select_with_other`: `off` is `col_num - 4` (column D is the
source), i.e. 1 for column E through 10 for column N. -/
def subColRefs (off : Nat) (s : List Char) : List Char := goH off false [] false [] s

/-- The per-cell drag of `cut_single_select_with_other` lines 193-227: only
string values starting with `'='` are rewritten, other values are copied. -/
def dragValue (off : Nat) (v : String) : String :=
  match v.data with
  | '=' :: _ => String.mk (subColRefs off v.data)
  | _ => v

/-!
## Structured formulas

To state what the rewriters do to *reference tokens* we view a formula as a
list of tokens: literal text, uppercase words (function names, text inside
quoted strings), digit runs (numeric literals), and cell references
`(optional $)(column letters)(optional $)(row digits)`.  `printToks` flattens
the view back to the character string the source manipulates; the
well-formedness predicates below say when the flattening is unambiguous for
the respective regex (no token runs into its neighbour). -/

inductive FTok where
  | lit : List Char → FTok
  | word : List Char → FTok
  | num : List Char → FTok
  | ref : Bool → List Char → Bool → Nat → FTok
deriving DecidableEq

/-- The character string of one token. -/
def printTok : FTok → List Char
  | .lit s => s
  | .word s => s
  | .num s => s
  | .ref ca col ra r =>
      (if ca then ['$'] else []) ++ col ++ (if ra then ['$'] else []) ++ natChars r

/-- The character string of a token list. -/
def printToks : List FTok → List Char
  | [] => []
  | t :: ts => printTok t ++ printToks ts

/-- The vertical rewrite rule as the spec states it: a reference whose row
digits are not preceded by `$` is row-shifted by the offset; every other
token is unchanged. -/
def shiftRowTok (off : Nat) : FTok → FTok
  | .ref ca col false r => .ref ca col false (r + off)
  | t => t

/-- The horizontal rewrite rule as the source's comment states it: a
reference whose column letters are not preceded by `$` but whose row is
`$`-absolute is column-shifted by the offset; every other token is
unchanged. -/
def shiftColTok (off : Nat) : FTok → FTok
  | .ref false col true r => .ref false (colLetters (colIndex col + off)) true r
  | t => t

/-- `p` holds of the character, or there is none. -/
def chOK (p : Char → Bool) : Option Char → Bool
  | none => true
  | some c => p c

/-- Literal text safe for both scanners: no uppercase letter, digit or `$`. -/
def litOK (s : List Char) : Bool := s.all fun c => !isUC c && !isDg c && c != '$'

/-- Well-formed token list for the vertical scanner: words and references
hold what they claim, a word is not followed by a letter or digit, and a
row-relative reference is not followed by a digit. -/
def wfV : List FTok → Bool
  | [] => true
  | .lit s :: ts => litOK s && wfV ts
  | .num s :: ts => !s.isEmpty && s.all isDg && wfV ts
  | .word s :: ts =>
      !s.isEmpty && s.all isUC &&
        chOK (fun c => !isUC c && !isDg c) (printToks ts).head? && wfV ts
  | .ref _ col ra _ :: ts =>
      !col.isEmpty && col.all isUC && (ra || chOK (fun c => !isDg c) (printToks ts).head?) &&
        wfV ts

/-- Well-formed token list for the horizontal scanner: additionally a fully
absolute reference must have a single-letter column (the scanner's negative
lookbehind protects only the first letter of `$AJC$2`). -/
def wfH : List FTok → Bool
  | [] => true
  | .lit s :: ts => litOK s && wfH ts
  | .num s :: ts => !s.isEmpty && s.all isDg && wfH ts
  | .word s :: ts =>
      !s.isEmpty && s.all isUC && chOK (fun c => !isUC c) (printToks ts).head? &&
        (!((printToks ts).head? == some '$') ||
          chOK (fun c => !isDg c) ((printToks ts).tail.head?)) && wfH ts
  | .ref ca col ra _ :: ts =>
      !col.isEmpty && col.all isUC && (!(ca && ra) || col.length == 1) &&
        (!ra || chOK (fun c => !isDg c) (printToks ts).head?) && wfH ts

/-!
### Behaviour of the vertical scanner on well-formed token streams
-/

theorem no_dollar_of_UC_DG {l : List Char}
    (h : ∀ c ∈ l, isUC c = true ∨ isDg c = true) : '$' ∉ l := by
  intro hmem
  rcases h _ hmem with h' | h'
  · exact isUC_ne_dollar h' rfl
  · exact isDg_ne_dollar h' rfl

theorem goV_letters (off : Nat) (w : List Char) :
    ∀ (L rest : List Char), (∀ c ∈ w, isUC c = true) →
      goV off L [] (w ++ rest) = goV off (L ++ w) [] rest := by
  induction w with
  | nil => intro L rest _; simp
  | cons c w ih =>
    intro L rest hw
    have hc : isUC c = true := hw c (List.mem_cons_self c w)
    rw [List.cons_append, goV]
    simp only [List.isEmpty_nil, if_pos rfl, hc, if_pos rfl]
    rw [ih (L ++ [c]) rest (fun d hd => hw d (List.mem_cons_of_mem c hd))]
    simp

theorem goV_digits (off : Nat) (d : List Char) :
    ∀ (L D rest : List Char), D ≠ [] → (∀ c ∈ d, isDg c = true) →
      goV off L D (d ++ rest) = goV off L (D ++ d) rest := by
  induction d with
  | nil => intro L D rest _ _; simp
  | cons c d ih =>
    intro L D rest hD hd
    have hc : isDg c = true := hd c (List.mem_cons_self c d)
    rw [List.cons_append, goV]
    rw [if_neg (by simpa [List.isEmpty_iff] using hD)]
    rw [if_pos hc]
    rw [ih L (D ++ [c]) rest (by simp) (fun e he => hd e (List.mem_cons_of_mem c he))]
    simp

theorem goV_pass1 (off : Nat) (c : Char) (rest : List Char) (h : isUC c = false) :
    goV off [] [] (c :: rest) = c :: goV off [] [] rest := by
  rw [goV]
  simp [h]

theorem goV_passrun (off : Nat) (s : List Char) :
    ∀ rest : List Char, (∀ c ∈ s, isUC c = false) →
      goV off [] [] (s ++ rest) = s ++ goV off [] [] rest := by
  induction s with
  | nil => intro rest _; simp
  | cons c s ih =>
    intro rest hs
    rw [List.cons_append, goV_pass1 off c _ (hs c (List.mem_cons_self c s)),
      ih rest (fun d hd => hs d (List.mem_cons_of_mem c hd))]
    simp

/-- Restarting the scanner on `c :: cs` from the empty state agrees with the
inlined continuation the match-flush branch uses. -/
theorem goV_restart (off : Nat) (c : Char) (cs : List Char) :
    goV off [] [] (c :: cs) =
      if isUC c then goV off [c] [] cs else c :: goV off [] [] cs := by
  by_cases h : isUC c
  · rw [goV]; simp [h]
  · rw [goV_pass1 off c cs (by simpa using h)]
    simp [h]


theorem stepV_word (off : Nat) (w rest : List Char) (hw : ∀ c ∈ w, isUC c = true)
    (hr : chOK (fun c => !isUC c && !isDg c) rest.head? = true) :
    goV off [] [] (w ++ rest) = w ++ goV off [] [] rest := by
  rw [goV_letters off w [] rest hw, List.nil_append]
  cases rest with
  | nil => simp [goV, flushV]
  | cons c cs =>
    simp only [List.head?_cons, chOK, Bool.and_eq_true, Bool.not_eq_true'] at hr
    rw [goV]
    simp [hr.1, hr.2, goV_pass1 off c cs hr.1]


theorem stepV_ref_rel (off : Nat) (ca : Bool) (col : List Char) (r : Nat)
    (rest : List Char) (hne : col ≠ []) (hcol : ∀ c ∈ col, isUC c = true)
    (hr : chOK (fun c => !isDg c) rest.head? = true) :
    goV off [] [] ((if ca then ['$'] else []) ++ col ++ natChars r ++ rest) =
      ((if ca then ['$'] else []) ++ col ++ natChars (r + off)) ++ goV off [] [] rest := by
  have core : goV off [] [] (col ++ (natChars r ++ rest)) =
      (col ++ natChars (r + off)) ++ goV off [] [] rest := by
    rw [goV_letters off col [] _ hcol, List.nil_append]
    obtain ⟨d, ds, hds⟩ := List.exists_cons_of_ne_nil (natChars_ne_nil r)
    have hdig : ∀ c ∈ natChars r, isDg c = true := natChars_all_digits r
    have hd : isDg d = true := by rw [hds] at hdig; exact hdig d (List.mem_cons_self d ds)
    have hds' : ∀ c ∈ ds, isDg c = true := by
      rw [hds] at hdig; exact fun c hc => hdig c (List.mem_cons_of_mem d hc)
    have hnodollar : ('$' ∈ col ++ d :: ds) = False := by
      simp only [eq_iff_iff, iff_false]
      apply no_dollar_of_UC_DG
      intro c hc
      rcases List.mem_append.1 hc with h | h
      · exact Or.inl (hcol c h)
      · rcases List.mem_cons.1 h with h | h
        · exact Or.inr (h ▸ hd)
        · exact Or.inr (hds' c h)
    have hval : digitsToNat (d :: ds) = r := by rw [← hds]; exact digitsToNat_natChars r
    have hfl : flushV off col (d :: ds) = col ++ natChars (r + off) := by
      simp [flushV, hnodollar, hval]
    have hcolne : col.isEmpty = false := by simp [List.isEmpty_iff, hne]
    rw [hds, List.cons_append, goV]
    simp only [List.isEmpty_nil, if_pos trivial, isDg_not_isUC hd, Bool.false_eq_true,
      if_false, hd, hcolne, Bool.not_false, Bool.and_self, if_true]
    rw [goV_digits off ds col [d] rest (by simp) hds', List.singleton_append]
    cases rest with
    | nil =>
      rw [goV, hfl, goV]
      simp [flushV]
    | cons c cs =>
      simp only [List.head?_cons, chOK, Bool.not_eq_true'] at hr
      rw [goV]
      simp only [List.isEmpty_cons, Bool.false_eq_true, if_false, hr, hfl]
      rw [← goV_restart off c cs]
  by_cases hca : ca
  · subst hca
    simp only [if_pos trivial, List.singleton_append, List.cons_append, List.append_assoc]
    rw [goV_pass1 off '$' _ (by decide)]
    simp only [List.nil_append]
    rw [core]
    simp [List.append_assoc]
  · simp only [Bool.not_eq_true] at hca
    subst hca
    simpa [List.append_assoc] using core


theorem stepV_ref_abs (off : Nat) (ca : Bool) (col : List Char) (r : Nat)
    (rest : List Char) (hcol : ∀ c ∈ col, isUC c = true) :
    goV off [] [] ((if ca then ['$'] else []) ++ col ++ '$' :: natChars r ++ rest) =
      ((if ca then ['$'] else []) ++ col ++ '$' :: natChars r) ++ goV off [] [] rest := by
  have core : goV off [] [] (col ++ '$' :: (natChars r ++ rest)) =
      col ++ '$' :: (natChars r ++ goV off [] [] rest) := by
    have : ('$' :: (natChars r ++ rest)) = ['$'] ++ (natChars r ++ rest) := rfl
    rw [this, goV_letters off col [] _ hcol, List.nil_append, List.singleton_append, goV]
    simp only [List.isEmpty_nil, if_pos trivial]
    rw [if_neg (by decide)]
    rw [if_neg (by rw [show isDg '$' = false from by decide]; simp)]
    rw [goV_passrun off (natChars r) rest
      (fun c hc => isDg_not_isUC (natChars_all_digits r c hc))]
  by_cases hca : ca
  · subst hca
    simp only [if_pos trivial, List.singleton_append, List.cons_append, List.append_assoc]
    rw [goV_pass1 off '$' _ (by decide)]
    simp only [List.nil_append]
    rw [core]
  · simp only [Bool.not_eq_true] at hca
    subst hca
    simp only [Bool.false_eq_true, if_false, List.nil_append,
      List.cons_append, List.append_assoc]
    simp only [List.cons_append, List.append_assoc] at core
    rw [core]


/-- `goV` from the empty state, named for rewriting. -/
theorem subRowRefs_def (off : Nat) (s : List Char) :
    goV off [] [] s = subRowRefs off s := rfl

/-- C3: the vertical copy-down rewrite renders a well-formed token stream
exactly as the spec's vertical rule states: every reference whose row digits
are not `$`-prefixed is row-shifted by exactly the offset
(`targetRow - baseRow`), every `$`-row reference is unchanged regardless of
its column part, and no column letters are altered. -/
theorem subRowRefs_renders (off : Nat) (ts : List FTok) (h : wfV ts = true) :
    subRowRefs off (printToks ts) = printToks (ts.map (shiftRowTok off)) := by
  induction ts with
  | nil => rfl
  | cons t ts ih =>
    match t with
    | .lit s =>
      rw [wfV] at h
      simp only [Bool.and_eq_true] at h
      obtain ⟨h1, h4⟩ := h
      have hch : ∀ c ∈ s, isUC c = false := by
        intro c hc
        have := List.all_eq_true.1 h1 c hc
        simp only [Bool.and_eq_true, Bool.not_eq_true'] at this
        exact this.1.1
      simp only [printToks, printTok, List.map_cons, shiftRowTok, subRowRefs]
      rw [goV_passrun off s _ hch, subRowRefs_def, ih h4]
    | .num s =>
      rw [wfV] at h
      simp only [Bool.and_eq_true] at h
      obtain ⟨⟨h1, h2⟩, h4⟩ := h
      have hch : ∀ c ∈ s, isUC c = false := fun c hc =>
        isDg_not_isUC (List.all_eq_true.1 h2 c hc)
      simp only [printToks, printTok, List.map_cons, shiftRowTok, subRowRefs]
      rw [goV_passrun off s _ hch, subRowRefs_def, ih h4]
    | .word s =>
      rw [wfV] at h
      simp only [Bool.and_eq_true] at h
      obtain ⟨⟨⟨h1, h2⟩, h3⟩, h4⟩ := h
      simp only [printToks, printTok, List.map_cons, shiftRowTok, subRowRefs]
      rw [stepV_word off s _ (fun c hc => List.all_eq_true.1 h2 c hc) h3,
        subRowRefs_def, ih h4]
    | .ref ca col ra r =>
      rw [wfV] at h
      simp only [Bool.and_eq_true] at h
      obtain ⟨⟨⟨h1, h2⟩, h3⟩, h4⟩ := h
      have hne : col ≠ [] := by simpa [List.isEmpty_iff] using h1
      have hcol : ∀ c ∈ col, isUC c = true := fun c hc => List.all_eq_true.1 h2 c hc
      match ra with
      | true =>
        simp only [printToks, printTok, List.map_cons, shiftRowTok,
          if_pos trivial, subRowRefs]
        have hs := stepV_ref_abs off ca col r (printToks ts) hcol
        simp only [List.cons_append, List.append_assoc, List.singleton_append,
          List.nil_append] at hs ⊢
        rw [hs, subRowRefs_def, ih h4]
      | false =>
        have h3' : chOK (fun c => !isDg c) (printToks ts).head? = true := by
          simpa using h3
        simp only [printToks, printTok, List.map_cons, shiftRowTok,
          Bool.false_eq_true, if_false, List.nil_append, subRowRefs]
        have hs := stepV_ref_rel off ca col r (printToks ts) hne hcol h3'
        simp only [List.cons_append, List.append_assoc, List.singleton_append,
          List.nil_append] at hs ⊢
        rw [hs, subRowRefs_def, ih h4]


/-!
### Behaviour of the horizontal scanner on well-formed token streams
-/

theorem goH_letters (off : Nat) (w : List Char) :
    ∀ (L rest : List Char), (∀ c ∈ w, isUC c = true) →
      goH off false L false [] (w ++ rest) = goH off false (L ++ w) false [] rest := by
  induction w with
  | nil => intro L rest _; simp
  | cons c w ih =>
    intro L rest hw
    have hc : isUC c = true := hw c (List.mem_cons_self c w)
    rw [List.cons_append, goH]
    by_cases hL : L.isEmpty
    · simp only [hL, if_pos trivial, Bool.false_eq_true, if_false, hc,
        Bool.not_false, Bool.and_self, if_true]
      rw [ih [c] rest (fun d hd => hw d (List.mem_cons_of_mem c hd))]
      have : L = [] := by simpa [List.isEmpty_iff] using hL
      simp [this]
    · simp only [hL, Bool.false_eq_true, if_false, hc, if_pos trivial]
      rw [ih (L ++ [c]) rest (fun d hd => hw d (List.mem_cons_of_mem c hd))]
      simp
  
theorem goH_digits (off : Nat) (d : List Char) :
    ∀ (L D rest : List Char), (∀ c ∈ d, isDg c = true) →
      goH off false L true D (d ++ rest) = goH off false L true (D ++ d) rest := by
  induction d with
  | nil => intro L D rest _; simp
  | cons c d ih =>
    intro L D rest hd
    have hc : isDg c = true := hd c (List.mem_cons_self c d)
    rw [List.cons_append, goH]
    simp only [if_pos trivial, hc, if_true]
    rw [ih L (D ++ [c]) rest (fun e he => hd e (List.mem_cons_of_mem c he))]
    simp

theorem goH_pass1 (off : Nat) (p : Bool) (c : Char) (rest : List Char)
    (h : isUC c = false ∨ p = true) :
    goH off p [] false [] (c :: rest) = c :: goH off (c == '$') [] false [] rest := by
  rw [goH]
  rcases h with h | h
  · simp [h]
  · simp [h]

theorem goH_passrun_entry (off : Nat) (s : List Char) :
    ∀ (p : Bool) (rest : List Char), s ≠ [] →
      (∀ c ∈ s, isUC c = false ∧ (c == '$') = false) →
      goH off p [] false [] (s ++ rest) = s ++ goH off false [] false [] rest := by
  induction s with
  | nil => intro p rest h _; exact absurd rfl h
  | cons c s ih =>
    intro p rest _ hs
    obtain ⟨h1, h2⟩ := hs c (List.mem_cons_self c s)
    rw [List.cons_append, goH_pass1 off p c _ (Or.inl h1), h2]
    cases s with
    | nil => simp
    | cons e s' =>
      rw [ih false rest (by simp) (fun d hd => hs d (List.mem_cons_of_mem c hd))]
      simp

theorem goH_passrun (off : Nat) (s : List Char) (rest : List Char)
    (hs : ∀ c ∈ s, isUC c = false ∧ (c == '$') = false) :
    goH off false [] false [] (s ++ rest) = s ++ goH off false [] false [] rest := by
  cases s with
  | nil => simp
  | cons c s' => exact goH_passrun_entry off (c :: s') false rest (by simp) hs

theorem goH_restart (off : Nat) (c : Char) (cs : List Char) :
    goH off false [] false [] (c :: cs) =
      if isUC c then goH off false [c] false [] cs
      else c :: goH off (c == '$') [] false [] cs := by
  by_cases h : isUC c
  · rw [goH]; simp [h]
  · rw [goH_pass1 off false c cs (Or.inl (by simpa using h))]
    simp [h]


/-- One scanner step: a `'$'` ends a pending letter run and arms the
digit part. -/
theorem goH_dollar_in_run (off : Nat) (L cs : List Char) (hL : L.isEmpty = false) :
    goH off false L false [] ('$' :: cs) = goH off false L true [] cs := by
  rw [goH]; simp [hL, show isUC '$' = false from rfl]

theorem goH_nonUC_in_run (off : Nat) (L cs : List Char) (c : Char)
    (hL : L.isEmpty = false) (h1 : isUC c = false) (h2 : (c == '$') = false) :
    goH off false L false [] (c :: cs) = (L ++ [c]) ++ goH off false [] false [] cs := by
  rw [goH]; simp [hL, h1, h2]

theorem goH_run_end (off : Nat) (p : Bool) (L : List Char) :
    goH off p L false [] [] = L := by
  rw [goH]; simp

theorem goH_armed_end (off : Nat) (L : List Char) : goH off false L true [] [] = L ++ ['$'] := by
  rw [goH]; simp

theorem goH_filled_end (off : Nat) (L D : List Char) (hD : D.isEmpty = false) :
    goH off false L true D [] = flushH off L D := by
  rw [goH]; simp [hD]

theorem goH_armed_nondigit (off : Nat) (L cs : List Char) (c : Char) (h : isDg c = false) :
    goH off false L true [] (c :: cs) =
      (L ++ ['$']) ++ c :: goH off (c == '$') [] false [] cs := by
  rw [goH]; simp [h]

theorem goH_filled_nondigit (off : Nat) (L D cs : List Char) (c : Char)
    (hD : D.isEmpty = false) (h : isDg c = false) :
    goH off false L true D (c :: cs) =
      flushH off L D ++ goH off false [] false [] (c :: cs) := by
  rw [goH, goH_restart]
  simp [hD, h]

theorem stepH_word (off : Nat) (w rest : List Char) (hne : w ≠ [])
    (hw : ∀ c ∈ w, isUC c = true)
    (hr1 : chOK (fun c => !isUC c) rest.head? = true)
    (hr2 : (!(rest.head? == some '$') || chOK (fun c => !isDg c) rest.tail.head?) = true) :
    goH off false [] false [] (w ++ rest) = w ++ goH off false [] false [] rest := by
  rw [goH_letters off w [] rest hw, List.nil_append]
  have hwe : w.isEmpty = false := by simp [List.isEmpty_iff, hne]
  cases rest with
  | nil => simp [goH_run_end]
  | cons c cs =>
    simp only [List.head?_cons, chOK, Bool.not_eq_true'] at hr1
    by_cases hc : c = '$'
    · subst hc
      simp only [List.head?_cons, List.tail_cons,
        show ((some '$' == some '$')) = true from by decide, Bool.not_true,
        Bool.false_or] at hr2
      rw [goH_dollar_in_run off w cs hwe]
      cases cs with
      | nil =>
        rw [goH_armed_end, goH_pass1 off false '$' [] (Or.inl (by decide)),
          goH_run_end off ('$' == '$')]
      | cons d ds =>
        simp only [List.head?_cons, chOK, Bool.not_eq_true'] at hr2
        rw [goH_armed_nondigit off w ds d hr2,
          goH_pass1 off false '$' (d :: ds) (Or.inl (by decide)),
          goH_pass1 off ('$' == '$') d ds (Or.inr (by decide))]
        simp
    · have hcb : (c == '$') = false := by simpa using hc
      rw [goH_nonUC_in_run off w cs c hwe hr1 hcb,
        goH_pass1 off false c cs (Or.inl hr1), hcb]
      simp

theorem stepH_ref_shift (off : Nat) (col : List Char) (r : Nat) (rest : List Char)
    (hne : col ≠ []) (hcol : ∀ c ∈ col, isUC c = true)
    (hr : chOK (fun c => !isDg c) rest.head? = true) :
    goH off false [] false [] (col ++ '$' :: (natChars r ++ rest)) =
      (colLetters (colIndex col + off) ++ '$' :: natChars r) ++
        goH off false [] false [] rest := by
  have h1 : ('$' :: (natChars r ++ rest)) = ['$'] ++ (natChars r ++ rest) := rfl
  rw [h1, goH_letters off col [] _ hcol, List.nil_append, List.singleton_append]
  have hwe : col.isEmpty = false := by simp [List.isEmpty_iff, hne]
  have hDne : (natChars r).isEmpty = false := by
    simpa [List.isEmpty_iff] using natChars_ne_nil r
  rw [goH_dollar_in_run off col _ hwe,
    goH_digits off (natChars r) col [] rest (natChars_all_digits r), List.nil_append]
  cases rest with
  | nil =>
    rw [goH_filled_end off col (natChars r) hDne]
    simp [flushH, goH_run_end]
  | cons c cs =>
    simp only [List.head?_cons, chOK, Bool.not_eq_true'] at hr
    rw [goH_filled_nondigit off col (natChars r) cs c hDne hr]
    simp [flushH]

theorem stepH_ref_plain (off : Nat) (col : List Char) (r : Nat) (rest : List Char)
    (hne : col ≠ []) (hcol : ∀ c ∈ col, isUC c = true) :
    goH off false [] false [] (col ++ (natChars r ++ rest)) =
      (col ++ natChars r) ++ goH off false [] false [] rest := by
  rw [goH_letters off col [] _ hcol, List.nil_append]
  have hwe : col.isEmpty = false := by simp [List.isEmpty_iff, hne]
  obtain ⟨d, ds, hds⟩ := List.exists_cons_of_ne_nil (natChars_ne_nil r)
  have hdig : ∀ c ∈ natChars r, isDg c = true := natChars_all_digits r
  have hd : isDg d = true := by rw [hds] at hdig; exact hdig d (List.mem_cons_self d ds)
  have hds' : ∀ c ∈ ds, isDg c = true := by
    rw [hds] at hdig; exact fun c hc => hdig c (List.mem_cons_of_mem d hc)
  rw [hds, List.cons_append,
    goH_nonUC_in_run off col (ds ++ rest) d hwe (isDg_not_isUC hd)
      (by simpa using isDg_ne_dollar hd),
    goH_passrun off ds rest
      (fun c hc => ⟨isDg_not_isUC (hds' c hc), by simpa using isDg_ne_dollar (hds' c hc)⟩)]
  simp

theorem stepH_ref_colabs (off : Nat) (col : List Char) (r : Nat) (rest : List Char)
    (hne : col ≠ []) (hcol : ∀ c ∈ col, isUC c = true) :
    goH off false [] false [] ('$' :: (col ++ (natChars r ++ rest))) =
      ('$' :: (col ++ natChars r)) ++ goH off false [] false [] rest := by
  rw [goH_pass1 off false '$' _ (Or.inl (by decide))]
  obtain ⟨c1, colT, hc1⟩ := List.exists_cons_of_ne_nil hne
  have hc1U : isUC c1 = true := by
    rw [hc1] at hcol; exact hcol c1 (List.mem_cons_self c1 colT)
  have hcolT : ∀ c ∈ colT, isUC c = true := by
    rw [hc1] at hcol; exact fun c hc => hcol c (List.mem_cons_of_mem c1 hc)
  rw [hc1, List.cons_append, goH_pass1 off ('$' == '$') c1 _ (Or.inr (by decide)),
    show (c1 == '$') = false from by simpa using isUC_ne_dollar hc1U]
  cases colT with
  | nil =>
    rw [List.nil_append, goH_passrun off (natChars r) rest
      (fun c hc => ⟨isDg_not_isUC (natChars_all_digits r c hc),
        by simpa using isDg_ne_dollar (natChars_all_digits r c hc)⟩)]
    simp
  | cons c2 colT' =>
    rw [stepH_ref_plain off (c2 :: colT') r rest (by simp) hcolT]
    simp

theorem stepH_ref_absabs (off : Nat) (c1 : Char) (r : Nat) (rest : List Char)
    (hc1 : isUC c1 = true) :
    goH off false [] false [] ('$' :: c1 :: '$' :: (natChars r ++ rest)) =
      ('$' :: c1 :: '$' :: natChars r) ++ goH off false [] false [] rest := by
  rw [goH_pass1 off false '$' _ (Or.inl (by decide)),
    goH_pass1 off ('$' == '$') c1 _ (Or.inr (by decide)),
    show (c1 == '$') = false from by simpa using isUC_ne_dollar hc1,
    goH_pass1 off false '$' _ (Or.inl (by decide)),
    goH_passrun_entry off (natChars r) ('$' == '$') rest (natChars_ne_nil r)
      (fun c hc => ⟨isDg_not_isUC (natChars_all_digits r c hc),
        by simpa using isDg_ne_dollar (natChars_all_digits r c hc)⟩)]
  simp


theorem subColRefs_def (off : Nat) (s : List Char) :
    goH off false [] false [] s = subColRefs off s := rfl

/-- C2 (amended): the horizontal sideways rewrite column-shifts exactly the
references of shape `letters$digits` whose letters are not `$`-prefixed
(letters converted to a 1-based index, offset applied, converted back);
every other well-formed token — fully relative references such as `D16`,
`$`-column references, and in particular fully absolute references with a
single-letter column such as `$G$4` — is unchanged, and no row digits are
ever altered.  (Multi-letter fully absolute columns such as `$AJC$2` are
excluded by well-formedness: the code rewrites their trailing letters,
see the C1 theorem.) -/
theorem subColRefs_renders (off : Nat) (ts : List FTok) (h : wfH ts = true) :
    subColRefs off (printToks ts) = printToks (ts.map (shiftColTok off)) := by
  induction ts with
  | nil => rfl
  | cons t ts ih =>
    match t with
    | .lit s =>
      rw [wfH] at h
      simp only [Bool.and_eq_true] at h
      obtain ⟨h1, h4⟩ := h
      have hch : ∀ c ∈ s, isUC c = false ∧ (c == '$') = false := by
        intro c hc
        have := List.all_eq_true.1 h1 c hc
        simp only [Bool.and_eq_true, Bool.not_eq_true'] at this
        exact ⟨this.1.1, by simpa using this.2⟩
      simp only [printToks, printTok, List.map_cons, shiftColTok, subColRefs]
      rw [goH_passrun off s _ hch, subColRefs_def, ih h4]
    | .num s =>
      rw [wfH] at h
      simp only [Bool.and_eq_true] at h
      obtain ⟨⟨h1, h2⟩, h4⟩ := h
      have hch : ∀ c ∈ s, isUC c = false ∧ (c == '$') = false := fun c hc =>
        ⟨isDg_not_isUC (List.all_eq_true.1 h2 c hc),
          by simpa using isDg_ne_dollar (List.all_eq_true.1 h2 c hc)⟩
      simp only [printToks, printTok, List.map_cons, shiftColTok, subColRefs]
      rw [goH_passrun off s _ hch, subColRefs_def, ih h4]
    | .word s =>
      rw [wfH] at h
      simp only [Bool.and_eq_true] at h
      obtain ⟨⟨⟨⟨h1, h2⟩, h3⟩, h3b⟩, h4⟩ := h
      have hne : s ≠ [] := by simpa [List.isEmpty_iff] using h1
      simp only [printToks, printTok, List.map_cons, shiftColTok, subColRefs]
      rw [stepH_word off s _ hne (fun c hc => List.all_eq_true.1 h2 c hc) h3 h3b,
        subColRefs_def, ih h4]
    | .ref ca col ra r =>
      rw [wfH] at h
      simp only [Bool.and_eq_true] at h
      obtain ⟨⟨⟨⟨h1, h2⟩, h3⟩, h3b⟩, h4⟩ := h
      have hne : col ≠ [] := by simpa [List.isEmpty_iff] using h1
      have hcol : ∀ c ∈ col, isUC c = true := fun c hc => List.all_eq_true.1 h2 c hc
      match ca, ra with
      | false, true =>
        have hr : chOK (fun c => !isDg c) (printToks ts).head? = true := by simpa using h3b
        simp only [printToks, printTok, List.map_cons, shiftColTok,
          Bool.false_eq_true, if_false, if_pos trivial, List.nil_append]
        have hs := stepH_ref_shift off col r (printToks ts) hne hcol hr
        simp only [List.cons_append, List.append_assoc, List.singleton_append,
          List.nil_append] at hs ⊢
        simp only [subColRefs_def] at hs
        rw [hs, ih h4]
      | false, false =>
        simp only [printToks, printTok, List.map_cons, shiftColTok,
          Bool.false_eq_true, if_false, List.nil_append]
        have hs := stepH_ref_plain off col r (printToks ts) hne hcol
        simp only [List.cons_append, List.append_assoc, List.singleton_append,
          List.nil_append] at hs ⊢
        simp only [subColRefs_def] at hs
        rw [hs, ih h4]
      | true, false =>
        simp only [printToks, printTok, List.map_cons, shiftColTok,
          Bool.false_eq_true, if_false, if_pos trivial, List.nil_append]
        have hs := stepH_ref_colabs off col r (printToks ts) hne hcol
        simp only [List.cons_append, List.append_assoc, List.singleton_append,
          List.nil_append] at hs ⊢
        simp only [subColRefs_def] at hs
        rw [hs, ih h4]
      | true, true =>
        have hlen : col.length = 1 := by simpa using h3
        obtain ⟨c1, hcol1⟩ := List.length_eq_one.1 hlen
        have hc1U : isUC c1 = true := by
          rw [hcol1] at hcol; exact hcol c1 (List.mem_cons_self c1 [])
        subst hcol1
        simp only [printToks, printTok, List.map_cons, shiftColTok, if_pos trivial]
        have hs := stepH_ref_absabs off c1 r (printToks ts) hc1U
        simp only [List.cons_append, List.append_assoc, List.singleton_append,
          List.nil_append] at hs ⊢
        simp only [subColRefs_def] at hs
        rw [hs, ih h4]


/-!
## Strings, stripping and substring search

Helpers shared by the embeddings of the Python lookups and of the
column-question-map marker rule.  Cell values are `Option String`
(`none` = empty cell); Python truthiness on a string value is
non-emptiness. -/

/-- Python's `str.strip()` on the ASCII whitespace this repository meets. -/
def pyStrip (s : String) : String :=
  String.mk (((s.data.dropWhile isWS).reverse.dropWhile isWS).reverse)

/-- The decimal string `str(n)` of a nonnegative Python int. -/
def natStr (n : Nat) : String := String.mk (natChars n)

/-- Python truthiness of an optional cell value holding text. -/
def pyTruthy : Option String → Bool
  | none => false
  | some s => !s.data.isEmpty

/-- First index at which `pat` occurs in `s` (Python `str.find` when it does
not return `-1`; Excel `FIND` is this plus one).  `none` when absent. -/
def firstIdx (pat : List Char) : List Char → Option Nat
  | [] => if pat.isPrefixOf ([] : List Char) then some 0 else none
  | c :: cs =>
    if pat.isPrefixOf (c :: cs) then some 0
    else (firstIdx pat cs).map (· + 1)

theorem natStr_ne_System (q : Nat) : (natStr q == "System") = false := by
  apply beq_eq_false_iff_ne.2
  intro h
  have hdata : natChars q = "System".data := congrArg String.data h
  have : isDg 'S' = true := by
    have := natChars_all_digits q
    rw [hdata] at this
    exact this 'S' (by simp [String.data])
  exact absurd this (by decide)


/-!
## The data-map worksheet and its marker lookups

`src/data_extractors/data_map_extractor.py`.  A `DataMapRow` holds the
columns the extractor reads (C, D, E, G, H, L, N, P); a worksheet is the
list of its rows from row 4 (where every scan starts) to `max_row`,
in sheet order. -/

structure DataMapRow where
  c : Option String := none
  d : Option String := none
  e : Option String := none
  g : Option String := none
  h : Option String := none
  l : Option String := none
  n : Option String := none
  p : Option String := none
deriving DecidableEq

/-- Does a row's column G, trimmed and string-compared, equal
`str(question_number)`? -/
def gMatch (q : Nat) (r : DataMapRow) : Bool :=
  match r.g with
  | some gv => pyStrip gv == natStr q
  | none => false

/-- `find_question_text_from_data_map`: first row whose column G matches,
then column C trimmed (`None` for an empty/absent C). -/
def find_question_text_from_data_map : List DataMapRow → Nat → Option String
  | [], _ => none
  | r :: rest, q =>
    match r.g with
    | some gv =>
      if pyStrip gv == natStr q then
        match r.c with
        | some cv => if cv.data.isEmpty then none else some (pyStrip cv)
        | none => none
      else find_question_text_from_data_map rest q
    | none => find_question_text_from_data_map rest q

/-- `find_column_l_text_from_data_map`. -/
def find_column_l_text_from_data_map : List DataMapRow → Nat → Option String
  | [], _ => none
  | r :: rest, q =>
    match r.g with
    | some gv =>
      if pyStrip gv == natStr q then
        match r.l with
        | some lv => if lv.data.isEmpty then none else some (pyStrip lv)
        | none => none
      else find_column_l_text_from_data_map rest q
    | none => find_column_l_text_from_data_map rest q

/-- `find_section_number_from_data_map`. -/
def find_section_number_from_data_map : List DataMapRow → Nat → Option String
  | [], _ => none
  | r :: rest, q =>
    match r.g with
    | some gv =>
      if pyStrip gv == natStr q then
        match r.n with
        | some nv => if nv.data.isEmpty then none else some (pyStrip nv)
        | none => none
      else find_section_number_from_data_map rest q
    | none => find_section_number_from_data_map rest q

/-- `find_question_column_h_text`, carrying the sheet row number `i` the
fallback message interpolates; rows whose column G is `"System"` are
skipped before the match test. -/
def find_question_column_h_text : List DataMapRow → Nat → Nat → Option String
  | [], _, _ => none
  | r :: rest, i, q =>
    match r.g with
    | some gv =>
      if pyStrip gv == "System" then find_question_column_h_text rest (i + 1) q
      else if pyStrip gv == natStr q then
        match r.h with
        | some hv =>
          match hv.data with
          | '=' :: _ =>
            match r.c with
            | some cv =>
              if !cv.data.isEmpty && !(pyStrip cv).data.isEmpty then some (pyStrip cv)
              else some ("Question " ++ natStr q ++ " data from row " ++ natStr i)
            | none => some ("Question " ++ natStr q ++ " data from row " ++ natStr i)
          | _ => some (pyStrip hv)
        | none => none
      else find_question_column_h_text rest (i + 1) q
    | none => find_question_column_h_text rest (i + 1) q

/-- Value the C-lookup takes from a matched row. -/
def projC (r : DataMapRow) : Option String :=
  match r.c with
  | some cv => if cv.data.isEmpty then none else some (pyStrip cv)
  | none => none

/-- Value the L-lookup takes from a matched row. -/
def projL (r : DataMapRow) : Option String :=
  match r.l with
  | some lv => if lv.data.isEmpty then none else some (pyStrip lv)
  | none => none

/-- Value the N-lookup takes from a matched row. -/
def projN (r : DataMapRow) : Option String :=
  match r.n with
  | some nv => if nv.data.isEmpty then none else some (pyStrip nv)
  | none => none

/-- Value the H-lookup takes from the matched row at sheet row `i`. -/
def projH (q i : Nat) (r : DataMapRow) : Option String :=
  match r.h with
  | some hv =>
    match hv.data with
    | '=' :: _ =>
      match r.c with
      | some cv =>
        if !cv.data.isEmpty && !(pyStrip cv).data.isEmpty then some (pyStrip cv)
        else some ("Question " ++ natStr q ++ " data from row " ++ natStr i)
      | none => some ("Question " ++ natStr q ++ " data from row " ++ natStr i)
    | _ => some (pyStrip hv)
  | none => none


theorem find_question_text_eq (rows : List DataMapRow) (q : Nat) :
    find_question_text_from_data_map rows q = (rows.find? (gMatch q)).bind projC := by
  induction rows with
  | nil => rfl
  | cons r rest ih =>
    rw [find_question_text_from_data_map]
    match hr : r.g with
    | none =>
      rw [List.find?_cons_of_neg _ (by simp [gMatch, hr]), ih]
    | some gv =>
      dsimp only
      by_cases hq : (pyStrip gv == natStr q) = true
      · rw [if_pos hq, List.find?_cons_of_pos _ (by simp [gMatch, hr, hq]),
          Option.some_bind, projC]
      · rw [if_neg hq, List.find?_cons_of_neg _ (by simp [gMatch, hr, hq]), ih]

theorem find_column_l_text_eq (rows : List DataMapRow) (q : Nat) :
    find_column_l_text_from_data_map rows q = (rows.find? (gMatch q)).bind projL := by
  induction rows with
  | nil => rfl
  | cons r rest ih =>
    rw [find_column_l_text_from_data_map]
    match hr : r.g with
    | none =>
      rw [List.find?_cons_of_neg _ (by simp [gMatch, hr]), ih]
    | some gv =>
      dsimp only
      by_cases hq : (pyStrip gv == natStr q) = true
      · rw [if_pos hq, List.find?_cons_of_pos _ (by simp [gMatch, hr, hq]),
          Option.some_bind, projL]
      · rw [if_neg hq, List.find?_cons_of_neg _ (by simp [gMatch, hr, hq]), ih]

theorem find_section_number_eq (rows : List DataMapRow) (q : Nat) :
    find_section_number_from_data_map rows q = (rows.find? (gMatch q)).bind projN := by
  induction rows with
  | nil => rfl
  | cons r rest ih =>
    rw [find_section_number_from_data_map]
    match hr : r.g with
    | none =>
      rw [List.find?_cons_of_neg _ (by simp [gMatch, hr]), ih]
    | some gv =>
      dsimp only
      by_cases hq : (pyStrip gv == natStr q) = true
      · rw [if_pos hq, List.find?_cons_of_pos _ (by simp [gMatch, hr, hq]),
          Option.some_bind, projN]
      · rw [if_neg hq, List.find?_cons_of_neg _ (by simp [gMatch, hr, hq]), ih]

theorem find_question_column_h_eq (rows : List DataMapRow) :
    ∀ (i q : Nat), find_question_column_h_text rows i q =
      ((rows.enumFrom i).find? (fun p => gMatch q p.2)).bind
        (fun p => projH q p.1 p.2) := by
  induction rows with
  | nil => intro i q; rfl
  | cons r rest ih =>
    intro i q
    rw [find_question_column_h_text, List.enumFrom_cons]
    match hr : r.g with
    | none =>
      rw [List.find?_cons_of_neg _ (by simp [gMatch, hr]), ih]
    | some gv =>
      dsimp only
      by_cases hs : (pyStrip gv == "System") = true
      · have hq : (pyStrip gv == natStr q) = false := by
          have hsys : pyStrip gv = "System" := by simpa using hs
          rw [hsys]
          have hne : natStr q ≠ "System" :=
            beq_eq_false_iff_ne.1 (natStr_ne_System q)
          exact beq_eq_false_iff_ne.2 fun h => hne h.symm
        rw [if_pos hs, List.find?_cons_of_neg _ (by simp [gMatch, hr, hq]), ih]
      · simp only [Bool.not_eq_true] at hs
        rw [if_neg (by simp [hs])]
        by_cases hq : (pyStrip gv == natStr q) = true
        · rw [if_pos hq, List.find?_cons_of_pos _ (by simp [gMatch, hr, hq]),
            Option.some_bind, projH]
        · rw [if_neg hq, List.find?_cons_of_neg _ (by simp [gMatch, hr, hq]), ih]


/-!
## Response-option extraction

`extract_response_options` (lines 248-343): find the question's section
number, collect every data-map row whose column P equals
`"Select Option " ++ section` (trimmed, truthiness-checked first), place the
matched rows' (column D, column E) pairs in the question sheet at
rows 6, 7, …, append the `"<>"` sentinel row, and write the column-E
percentage formulas `=D<row>/$D$<sentinel row>` for rows 6 through the
sentinel row.  Only the writes the claims are about are modelled: the
option/sentinel writes to columns G and C and the column-E formulas. -/

def pMatch (tag : String) (r : DataMapRow) : Bool :=
  match r.p with
  | some pv => !pv.data.isEmpty && (pyStrip pv == "Select Option " ++ tag)
  | none => false

structure ExtractResult where
  options : List (Nat × Option String × Option String)
  eFormulas : List (Nat × String)
deriving DecidableEq

def emptyExtract : ExtractResult := ⟨[], []⟩

def extract_response_options (dm : List DataMapRow) (q : Nat) : ExtractResult :=
  match find_section_number_from_data_map dm q with
  | none => emptyExtract
  | some tag =>
    if tag.data.isEmpty then emptyExtract
    else
      let ms := dm.filter (pMatch tag)
      if ms.isEmpty then emptyExtract
      else
        { options := (ms.enum.map fun p => (6 + p.1, p.2.d, p.2.e)) ++
            [(6 + ms.length, some "<>", some "<>")],
          eFormulas := (List.range (ms.length + 1)).map fun k =>
            (6 + k, "=D" ++ natStr (6 + k) ++ "/$D$" ++ natStr (6 + ms.length)) }

/-!
## Question-tab creation and classification (`pipeline.py`)
-/

def sigSingleWithOther : String :=
  "0, 0, 0, Simple Select, , 0, 0, 0, 0, Other Specify Parent"

def sigSingleSelect : String := "0, 0, 0, Simple Select, , 0, 0, 0, 0, 0"

inductive BuildPath where
  | withOther
  | plainSingle
  | unclassified
deriving DecidableEq

/-- The `if`/`elif` dispatch of `create_question_tabs` lines 135-140: exact
string equality against the two known signatures, everything else falls
through (no build path runs, nothing raises). -/
def classifySignature (s : String) : BuildPath :=
  if s = sigSingleWithOther then .withOther
  else if s = sigSingleSelect then .plainSingle
  else .unclassified

/-- What one question tab holds after `create_question_tabs` (with the data
map present): A1, A2, and which build path ran (`none` when the lookup
produced no signature). -/
structure QuestionTab where
  a1 : Nat
  a2 : String
  path : Option BuildPath
deriving DecidableEq

def buildQuestionTab (q : Nat) (hText : Option String) : QuestionTab :=
  match hText with
  | some s =>
    if s.data.isEmpty then
      { a1 := q, a2 := "No data found for question " ++ natStr q, path := none }
    else { a1 := q, a2 := s, path := some (classifySignature s) }
  | none => { a1 := q, a2 := "No data found for question " ++ natStr q, path := none }

/-- The sheet-list effect of one loop iteration of `create_question_tabs`
lines 113-122: remove the sheet of that name if present, then create it at
the end. -/
def removeThenCreate (names : List String) (nm : String) : List String :=
  (if names.contains nm then names.erase nm else names) ++ [nm]

def questionTabNames : List String := (List.range 10).map fun i => "Q" ++ natStr (i + 1)

def create_question_tabs (names : List String) : List String :=
  questionTabNames.foldl removeThenCreate names

/-!
## External recalculation (`utils/excel_calculator.py`)

The Windows automation is an external collaborator; its availability and the
outcome it would have are the two inputs.  The try/except of
`calculate_excel_formulas` turns every outcome into a normal return. -/

inductive RecalcOutcome where
  | skippedNoWin32
  | calculated
  | failedSoft
deriving DecidableEq

def calculate_excel_formulas (win32Available : Bool)
    (excelRun : Except String Unit) : Except String RecalcOutcome :=
  if !win32Available then .ok .skippedNoWin32
  else
    match excelRun with
    | .ok _ => .ok .calculated
    | .error _ => .ok .failedSoft

/-!
## The column-question-map marker rule, twice

`column_question_map_initial_setup` writes the spreadsheet formula
`E3 = IF(D3="System","System",IF(ISNUMBER(FIND("_",C3)),LEFT(C3,FIND("_",C3)-1),
IF(ISNUMBER(FIND("none",C3)),LEFT(C3,FIND("none",C3)-1),
IF(ISNUMBER(FIND("r",C3)),LEFT(C3,FIND("r",C3)-1),C3))))` with
`D3 = IF(ISTEXT(LEFT(C3,1)),IF(EXACT(LEFT(C3,1),UPPER(LEFT(C3,1))),"Survey",
"System"),"First Char not Letter")` (lines 114-116), and then *simulates* the
same rule in Python (lines 175-200) to fill the unique-marker column without
waiting for recalculation.  Both are embedded (ASCII character semantics);
the `"System"` outcome of the formula is the no-marker case. -/

/-- Python `str.isalpha()` on the ASCII range. -/
def pyIsAlpha (c : Char) : Bool := ('A' ≤ c && c ≤ 'Z') || ('a' ≤ c && c ≤ 'z')

/-- Python `str.isupper()` on the ASCII range. -/
def pyIsUpper (c : Char) : Bool := 'A' ≤ c && c ≤ 'Z'

/-- The simulation's truncation: before the first `"_"` if any, else before
the first `"none"`, else before the first `"r"`, else the whole string. -/
def pyTrunc (s : List Char) : List Char :=
  match firstIdx "_".data s with
  | some i => s.take i
  | none =>
    match firstIdx "none".data s with
    | some i => s.take i
    | none =>
      match firstIdx "r".data s with
      | some i => s.take i
      | none => s

/-- The Python simulation per header cell (lines 175-200): strip, require an
uppercase alphabetic first character, then truncate. -/
def simulatedMarker (header : Option String) : Option String :=
  match header with
  | none => none
  | some raw =>
    let s := pyStrip raw
    match s.data with
    | [] => none
    | c :: _ =>
      if pyIsAlpha c && pyIsUpper c then some (String.mk (pyTrunc s.data))
      else none

/-- Excel `UPPER` on one ASCII character. -/
def excelUpperChar (c : Char) : Char :=
  if 'a' ≤ c && c ≤ 'z' then Char.ofNat (c.toNat - 32) else c

/-- The D3 formula: `"Survey"` iff the first character equals its own
uppercasing (`EXACT(LEFT(s,1),UPPER(LEFT(s,1)))`). -/
def d3Value (s : String) : String :=
  match s.data with
  | [] => "Survey"
  | c :: _ => if excelUpperChar c == c then "Survey" else "System"

/-- The E3 formula's truncation chain: `LEFT(s, FIND(pat, s) - 1)` with
Excel's 1-based `FIND`. -/
def excelTrunc (s : List Char) : List Char :=
  match firstIdx "_".data s with
  | some i => s.take (i + 1 - 1)
  | none =>
    match firstIdx "none".data s with
    | some i => s.take (i + 1 - 1)
    | none =>
      match firstIdx "r".data s with
      | some i => s.take (i + 1 - 1)
      | none => s

/-- The E3 formula per header cell, with its `"System"` branch read as
"no marker". -/
def e3Marker (s : String) : Option String :=
  if d3Value s == "System" then none else some (String.mk (excelTrunc s.data))


/-!
## Claim theorems
-/

/-- The dragged COUNTIFS formula of `cut_single_select_with_other` line 176,
parameterised by the rows its f-string interpolates (`reference_row` and the
four filter rows derived from `cross_cut_row`). -/
def countifsDragFormula (gRow fc1 f1 fc2 f2 : Nat) : String :=
  "=COUNTIFS(OFFSET('raw data'!$C$3:$C$502, 0, MATCH($G$4, 'raw data'!$C$2:$AJC$2, 0)-1), $G"
    ++ natStr gRow
    ++ ", OFFSET('raw data'!$C$3:$C$502, 0, MATCH(D$" ++ natStr fc1
    ++ ", 'raw data'!$C$2:$AJC$2, 0)-1), D$" ++ natStr f1
    ++ ", OFFSET('raw data'!$C$3:$C$502, 0, MATCH(D$" ++ natStr fc2
    ++ ", 'raw data'!$C$2:$AJC$2, 0)-1), D$" ++ natStr f2 ++ ")"

set_option maxRecDepth 40000 in
/-- C1: the question-tab builder's sideways copy does **not** leave the
sheet-qualified absolute range `'raw data'!$C$2:$AJC$2` unchanged.  On the
real dragged COUNTIFS formula (option table at rows 6-10, so
`cross_cut_row = 12` and filter rows 15/16/18/19), copying one column to the
right rewrites every `$AJC$2` to `$AJD$2`: the regex's negative lookbehind
protects only the first letter of the `$`-prefixed column, so the match
restarts at `JC$2`.  The intended `D$15 → E$15` shifts also happen. -/
theorem c1_absolute_range_rewritten :
    dragValue 1 (countifsDragFormula 6 15 16 18 19) =
      "=COUNTIFS(OFFSET('raw data'!$C$3:$C$502, 0, MATCH($G$4, 'raw data'!$C$2:$AJD$2, 0)-1), $G6, OFFSET('raw data'!$C$3:$C$502, 0, MATCH(E$15, 'raw data'!$C$2:$AJD$2, 0)-1), E$16, OFFSET('raw data'!$C$3:$C$502, 0, MATCH(E$18, 'raw data'!$C$2:$AJD$2, 0)-1), E$19)"
      ∧ dragValue 1 (countifsDragFormula 6 15 16 18 19) ≠ countifsDragFormula 6 15 16 18 19 := by
  constructor
  · decide
  · decide

/-- C2 counterexample: the claim as stated predicts that in `=D16+$AJC$2`
dragged two columns right, `D16` (column letters not preceded by `$`) becomes
`F16` and `$AJC$2` stays; the code leaves `D16` alone (the regex needs a `$`
between letters and digits) and rewrites `$AJC$2` to `$AJE$2`. -/
theorem c2_counterexample :
    dragValue 2 "=D16+$AJC$2" = "=D16+$AJE$2" ∧
      dragValue 2 "=D16+$AJC$2" ≠ "=F16+$AJC$2" := by
  constructor
  · decide
  · decide

/-- Example tokens: the spec's horizontal scenario `=D$16+$G$4`. -/
def exToksH : List FTok :=
  [.lit "=".data, .ref false "D".data true 16, .lit "+".data, .ref true "G".data true 4]

/-- C2 witness: at offset 2 the example renders as `=F$16+$G$4` — `D$16`
shifts to `F$16`, `$G$4` is untouched. -/
theorem c2_witness :
    wfH exToksH = true ∧
      printToks exToksH = "=D$16+$G$4".data ∧
      subColRefs 2 (printToks exToksH) = printToks (exToksH.map (shiftColTok 2)) ∧
      printToks (exToksH.map (shiftColTok 2)) = "=F$16+$G$4".data :=
  ⟨by decide, by decide, subColRefs_renders 2 exToksH (by decide), by decide⟩

/-- Example tokens: the spec's vertical scenario `=A1+$B$2`. -/
def exToksV : List FTok :=
  [.lit "=".data, .ref false "A".data false 1, .lit "+".data, .ref true "B".data true 2]

/-- C3 witness: rendering `=A1+$B$2` from base row 1 to target row 5
(offset 4) gives `=A5+$B$2`. -/
theorem c3_witness :
    wfV exToksV = true ∧
      printToks exToksV = "=A1+$B$2".data ∧
      subRowRefs 4 (printToks exToksV) = printToks (exToksV.map (shiftRowTok 4)) ∧
      printToks (exToksV.map (shiftRowTok 4)) = "=A5+$B$2".data :=
  ⟨by decide, by decide, subRowRefs_renders 4 exToksV (by decide), by decide⟩

/-- C5: classification is exact string equality and total.  The two literal
signatures select their build paths; any other non-empty signature leaves the
tab with just the question number in A1 and the raw signature in A2, and no
build path runs. -/
theorem c5_classification_total (q : Nat) (s : String) (hne : s ≠ "")
    (h1 : s ≠ sigSingleWithOther) (h2 : s ≠ sigSingleSelect) :
    buildQuestionTab q (some sigSingleWithOther) =
      { a1 := q, a2 := sigSingleWithOther, path := some .withOther } ∧
    buildQuestionTab q (some sigSingleSelect) =
      { a1 := q, a2 := sigSingleSelect, path := some .plainSingle } ∧
    buildQuestionTab q (some s) = { a1 := q, a2 := s, path := some .unclassified } := by
  refine ⟨?_, ?_, ?_⟩
  · rw [buildQuestionTab, if_neg (by decide),
      show classifySignature sigSingleWithOther = .withOther from by decide]
  · rw [buildQuestionTab, if_neg (by decide),
      show classifySignature sigSingleSelect = .plainSingle from by decide]
  · have hdata : s.data.isEmpty = false := by
      rcases s with ⟨l⟩
      rcases l with _ | ⟨c, cs⟩
      · exact absurd rfl hne
      · rfl
    rw [buildQuestionTab, if_neg (by simp [hdata]),
      show classifySignature s = .unclassified from by
        rw [classifySignature, if_neg h1, if_neg h2]]

/-- C5 witness at a concrete unknown signature. -/
theorem c5_witness :
    buildQuestionTab 3 (some "0, 0, 0, 0, , 0, 0, Rank, 0, 0") =
      { a1 := 3, a2 := "0, 0, 0, 0, , 0, 0, Rank, 0, 0", path := some .unclassified } :=
  (c5_classification_total 3 "0, 0, 0, 0, , 0, 0, Rank, 0, 0" (by decide) (by decide)
    (by decide)).2.2

/-- C8: the external-recalculation step returns normally on every input
path: library missing (skip), automation succeeding, and automation raising
(caught, logged, run continues) — it never propagates an error. -/
theorem c8_recalculation_always_soft (run : Except String Unit) (msg : String) :
    calculate_excel_formulas false run = .ok .skippedNoWin32 ∧
    calculate_excel_formulas true (.ok ()) = .ok .calculated ∧
    calculate_excel_formulas true (.error msg) = .ok .failedSoft ∧
    (calculate_excel_formulas true run).isOk = true := by
  refine ⟨rfl, rfl, rfl, ?_⟩
  cases run <;> rfl

/-- C9 counterexample: on the header `"1_x"` (first character a digit) the
Python simulation produces no marker, but the column-E formula's rule — its
`EXACT(LEFT(..),UPPER(LEFT(..)))` guard accepts any character that is not a
lowercase letter — truncates at the underscore and yields `"1"`. -/
theorem c9_counterexample :
    simulatedMarker (some "1_x") = none ∧ e3Marker "1_x" = some "1" ∧
      simulatedMarker (some "1_x") ≠ e3Marker "1_x" := by
  refine ⟨by decide, by decide, by decide⟩

theorem isUC_not_lower {c : Char} (h : isUC c = true) : ('a' ≤ c && c ≤ 'z') = false := by
  simp only [isUC, Bool.and_eq_true, decide_eq_true_eq] at h
  by_contra hx
  simp only [Bool.not_eq_false, Bool.and_eq_true, decide_eq_true_eq] at hx
  exact absurd (le_trans hx.1 h.2) (by decide)

/-- C9 amended: on every header that is already stripped and whose first
character is an ASCII uppercase letter, the Python simulation and the
column-E formula produce the same marker (the same `_`/`"none"`/`"r"`
truncation in the same order). -/
theorem c9_sim_matches_formula (s : String) (c : Char) (cs : List Char)
    (hdata : s.data = c :: cs) (hc : isUC c = true) (hstrip : pyStrip s = s) :
    simulatedMarker (some s) = e3Marker s := by
  have hAlpha : pyIsAlpha c = true := by
    simp only [pyIsAlpha, Bool.or_eq_true]
    exact Or.inl (by simpa [isUC] using hc)
  have hUpper : pyIsUpper c = true := by simpa [isUC, pyIsUpper] using hc
  have hexact : (excelUpperChar c == c) = true := by
    simp [excelUpperChar, isUC_not_lower hc]
  rw [simulatedMarker, hstrip]
  rw [e3Marker, d3Value, hdata]
  simp only [hexact, if_true, hdata, hAlpha, hUpper, Bool.and_self,
    show ("Survey" == "System") = false from by decide, Bool.false_eq_true, if_false]
  have htr : pyTrunc (c :: cs) = excelTrunc (c :: cs) := by
    rw [pyTrunc, excelTrunc]
    rcases firstIdx "_".data (c :: cs) with _ | i
    · rcases firstIdx "none".data (c :: cs) with _ | i
      · rcases firstIdx "r".data (c :: cs) with _ | i
        · rfl
        · simp
      · simp
    · simp
  rw [htr]

/-- C9 witness: on `"S2r1_x"` both paths give `"S2r1"` (the `_` wins). -/
theorem c9_witness :
    pyStrip "S2r1_x" = "S2r1_x" ∧
      simulatedMarker (some "S2r1_x") = e3Marker "S2r1_x" :=
  ⟨by decide, c9_sim_matches_formula "S2r1_x" 'S' "2r1_x".data (by decide) (by decide)
    (by decide)⟩


/-- C6 amended: when the section tag is found, is non-empty, and at least
one data-map row matches `"Select Option " ++ tag`, extraction writes the
matched rows' (column D, column E) pairs in sheet order at rows
`6, …, 5 + N` and exactly one sentinel `("<>", "<>")` row at row `6 + N` —
N + 1 rows in all. -/
theorem c6_option_rows (dm : List DataMapRow) (q : Nat) (tag : String)
    (hsec : find_section_number_from_data_map dm q = some tag)
    (htag : tag.data.isEmpty = false)
    (hms : (dm.filter (pMatch tag)).isEmpty = false) :
    (extract_response_options dm q).options.length = (dm.filter (pMatch tag)).length + 1 ∧
    (∀ k, k < (dm.filter (pMatch tag)).length →
      (extract_response_options dm q).options.get? k =
        ((dm.filter (pMatch tag)).get? k).map fun r => (6 + k, r.d, r.e)) ∧
    (extract_response_options dm q).options.getLast? =
      some (6 + (dm.filter (pMatch tag)).length, some "<>", some "<>") := by
  have hres : extract_response_options dm q =
      { options := ((dm.filter (pMatch tag)).enum.map fun p => (6 + p.1, p.2.d, p.2.e)) ++
          [(6 + (dm.filter (pMatch tag)).length, some "<>", some "<>")],
        eFormulas := (List.range ((dm.filter (pMatch tag)).length + 1)).map fun k =>
          (6 + k, "=D" ++ natStr (6 + k) ++ "/$D$"
            ++ natStr (6 + (dm.filter (pMatch tag)).length)) } := by
    rw [extract_response_options, hsec]
    simp only [htag, Bool.false_eq_true, if_false, hms]
  refine ⟨?_, ?_, ?_⟩
  · rw [hres]
    simp [List.enum_length]
  · intro k hk
    rw [hres]
    simp only
    rw [List.get?_append (by simpa [List.enum_length] using hk),
      List.get?_map, List.enum_get?]
    cases (dm.filter (pMatch tag)).get? k <;> rfl
  · rw [hres]
    simp only
    exact List.getLast?_concat _

/-- C7: every column-E percentage formula the extraction writes, at rows 6
through the sentinel row `6 + N`, is `=D<row>/$D$<6 + N>`: a relative
numerator for its own row over one absolute denominator fixed at the
sentinel row — the row where the `("<>", "<>")` pair is written. -/
theorem c7_percentage_denominator (dm : List DataMapRow) (q : Nat) (tag : String)
    (hsec : find_section_number_from_data_map dm q = some tag)
    (htag : tag.data.isEmpty = false)
    (hms : (dm.filter (pMatch tag)).isEmpty = false) :
    (extract_response_options dm q).eFormulas.length =
      (dm.filter (pMatch tag)).length + 1 ∧
    (∀ rw f, (rw, f) ∈ (extract_response_options dm q).eFormulas →
      6 ≤ rw ∧ rw ≤ 6 + (dm.filter (pMatch tag)).length ∧
      f = "=D" ++ natStr rw ++ "/$D$"
        ++ natStr (6 + (dm.filter (pMatch tag)).length)) ∧
    (extract_response_options dm q).options.getLast? =
      some (6 + (dm.filter (pMatch tag)).length, some "<>", some "<>") := by
  have hres : extract_response_options dm q =
      { options := ((dm.filter (pMatch tag)).enum.map fun p => (6 + p.1, p.2.d, p.2.e)) ++
          [(6 + (dm.filter (pMatch tag)).length, some "<>", some "<>")],
        eFormulas := (List.range ((dm.filter (pMatch tag)).length + 1)).map fun k =>
          (6 + k, "=D" ++ natStr (6 + k) ++ "/$D$"
            ++ natStr (6 + (dm.filter (pMatch tag)).length)) } := by
    rw [extract_response_options, hsec]
    simp only [htag, Bool.false_eq_true, if_false, hms]
  refine ⟨?_, ?_, ?_⟩
  · rw [hres]; simp
  · intro rw f hmem
    rw [hres] at hmem
    simp only [List.mem_map, List.mem_range] at hmem
    obtain ⟨k, hk, heq⟩ := hmem
    obtain ⟨h1, h2⟩ := Prod.mk.injEq .. ▸ heq
    refine ⟨by omega, by omega, ?_⟩
    rw [← h2, ← h1]
  · rw [hres]
    simp only
    exact List.getLast?_concat _


/-- A data map whose question 3 has section tag "3" but no
`"Select Option 3"` rows. -/
def dmNoOptions : List DataMapRow := [{ g := some "3", n := some "3" }]

/-- C6 counterexample: with a found section tag and N = 0 matched rows the
claim as stated demands N + 1 = 1 written rows (the sentinel alone); the
code returns before writing anything. -/
theorem c6_counterexample :
    find_section_number_from_data_map dmNoOptions 3 = some "3" ∧
      (dmNoOptions.filter (pMatch "3")).length = 0 ∧
      extract_response_options dmNoOptions 3 = emptyExtract ∧
      (extract_response_options dmNoOptions 3).options.length ≠ 0 + 1 := by
  refine ⟨by decide, by decide, by decide, by decide⟩

/-- The spec's option-extraction scenario: question 3, section tag "3",
four `"Select Option 3"` rows with codes 1-4 and labels Yes/No/Maybe/N-A. -/
def dmFourOptions : List DataMapRow :=
  [{ g := some "3", n := some "3" },
   { p := some "Select Option 3", d := some "1", e := some "Yes" },
   { p := some "Select Option 3", d := some "2", e := some "No" },
   { p := some "Select Option 3", d := some "3", e := some "Maybe" },
   { p := some "Select Option 3", d := some "4", e := some "N/A" }]

/-- C6 witness: the four-option scenario writes 4 + 1 rows, the first at
row 6 with code "1"/"Yes", the sentinel at row 10. -/
theorem c6_witness :
    (extract_response_options dmFourOptions 3).options.length =
      (dmFourOptions.filter (pMatch "3")).length + 1 ∧
    (extract_response_options dmFourOptions 3).options.get? 0 =
      ((dmFourOptions.filter (pMatch "3")).get? 0).map (fun r => (6 + 0, r.d, r.e)) ∧
    (extract_response_options dmFourOptions 3).options.getLast? =
      some (6 + (dmFourOptions.filter (pMatch "3")).length, some "<>", some "<>") :=
  ⟨(c6_option_rows dmFourOptions 3 "3" (by decide) (by decide) (by decide)).1,
    (c6_option_rows dmFourOptions 3 "3" (by decide) (by decide) (by decide)).2.1 0
      (by decide),
    (c6_option_rows dmFourOptions 3 "3" (by decide) (by decide) (by decide)).2.2⟩

/-- C7 witness: in the four-option scenario the formula written at row 6 is
`=D6/$D$10`, denominator fixed at the sentinel row 10. -/
theorem c7_witness :
    (6 ≤ 6 ∧ 6 ≤ 6 + (dmFourOptions.filter (pMatch "3")).length ∧
      "=D6/$D$10" = "=D" ++ natStr 6 ++ "/$D$"
        ++ natStr (6 + (dmFourOptions.filter (pMatch "3")).length)) ∧
    (extract_response_options dmFourOptions 3).options.getLast? =
      some (6 + (dmFourOptions.filter (pMatch "3")).length, some "<>", some "<>") :=
  ⟨(c7_percentage_denominator dmFourOptions 3 "3" (by decide) (by decide)
      (by decide)).2.1 6 "=D6/$D$10" (by decide),
    (c7_percentage_denominator dmFourOptions 3 "3" (by decide) (by decide)
      (by decide)).2.2⟩


/-!
### Question-tab idempotence (C10)
-/

/-- Erase each of `ts` (first occurrence) from `names`, left to right. -/
def eraseAll (names ts : List String) : List String := ts.foldl List.erase names

theorem removeThenCreate_eq (names : List String) (nm : String) :
    removeThenCreate names nm = names.erase nm ++ [nm] := by
  rw [removeThenCreate]
  by_cases h : names.contains nm
  · rw [if_pos h]
  · rw [if_neg h, List.erase_of_not_mem]
    intro hmem
    exact h (List.elem_eq_true_of_mem hmem)

theorem eraseAll_append_singleton (ns : List String) :
    ∀ (A : List String) (n : String), n ∉ ns →
      eraseAll (A ++ [n]) ns = eraseAll A ns ++ [n] := by
  induction ns with
  | nil => intro A n _; rfl
  | cons m ms ih =>
    intro A n hn
    have hnm : m ≠ n := fun h => hn (h ▸ List.mem_cons_self m ms)
    have hn' : n ∉ ms := fun h => hn (List.mem_cons_of_mem m h)
    show eraseAll ((A ++ [n]).erase m) ms = eraseAll (A.erase m) ms ++ [n]
    by_cases hm : m ∈ A
    · rw [List.erase_append_left _ hm, ih (A.erase m) n hn']
    · rw [List.erase_append_right _ hm, List.erase_of_not_mem (by simp [hnm]),
        List.erase_of_not_mem hm, ih A n hn']

theorem create_question_tabs_normal (ts : List String) :
    ∀ names : List String, ts.Nodup →
      ts.foldl removeThenCreate names = eraseAll names ts ++ ts := by
  induction ts with
  | nil => intro names _; simp [eraseAll]
  | cons n ns ih =>
    intro names hnd
    have hn4 : n ∉ ns := (List.nodup_cons.1 hnd).1
    show ns.foldl removeThenCreate (removeThenCreate names n) = _
    rw [removeThenCreate_eq, ih _ (List.nodup_cons.1 hnd).2,
      eraseAll_append_singleton ns (names.erase n) n hn4]
    show eraseAll (names.erase n) ns ++ [n] ++ ns = eraseAll names (n :: ns) ++ n :: ns
    simp [eraseAll, List.append_assoc]

theorem not_mem_eraseAll_of_not_mem (ts : List String) :
    ∀ (A : List String) (n : String), n ∉ A → n ∉ eraseAll A ts := by
  induction ts with
  | nil => intro A n h; exact h
  | cons m ms ih =>
    intro A n h
    exact ih (A.erase m) n (fun hc => h (List.mem_of_mem_erase hc))

theorem eraseAll_nodup (ts : List String) :
    ∀ A : List String, A.Nodup → (eraseAll A ts).Nodup := by
  induction ts with
  | nil => intro A h; exact h
  | cons m ms ih => intro A h; exact ih (A.erase m) (List.Nodup.erase m h)

theorem not_mem_eraseAll (ts : List String) :
    ∀ (A : List String) (n : String), A.Nodup → n ∈ ts → n ∉ eraseAll A ts := by
  induction ts with
  | nil => intro A n _ h; exact absurd h (List.not_mem_nil n)
  | cons m ms ih =>
    intro A n hA hn
    rcases List.mem_cons.1 hn with rfl | hn'
    · exact not_mem_eraseAll_of_not_mem ms (A.erase n) n (List.Nodup.not_mem_erase hA)
    · exact ih (A.erase m) n (List.Nodup.erase m hA) hn'

theorem eraseAll_count_of_not_mem (ts : List String) :
    ∀ (A : List String) (n : String), n ∉ ts →
      (eraseAll A ts).count n = A.count n := by
  induction ts with
  | nil => intro A n _; rfl
  | cons m ms ih =>
    intro A n h
    have hnm : n ≠ m := fun hc => h (hc ▸ List.mem_cons_self m ms)
    have h' : n ∉ ms := fun hc => h (List.mem_cons_of_mem m hc)
    show (eraseAll (A.erase m) ms).count n = A.count n
    rw [ih (A.erase m) n h', List.count_erase_of_ne hnm]

theorem eraseAll_of_disjoint (ts : List String) :
    ∀ A : List String, ts.Nodup → (∀ n ∈ ts, n ∉ A) →
      eraseAll (A ++ ts) ts = A := by
  induction ts with
  | nil => intro A _ _; simp [eraseAll]
  | cons t rest ih =>
    intro A hnd hdis
    have htA : t ∉ A := hdis t (List.mem_cons_self t rest)
    show eraseAll ((A ++ t :: rest).erase t) rest = A
    rw [List.erase_append_right _ htA, List.erase_cons_head]
    exact ih A (List.nodup_cons.1 hnd).2
      (fun n hn => hdis n (List.mem_cons_of_mem t hn))


/-- C10: with a workbook whose sheet names are distinct (openpyxl enforces
unique titles), `create_question_tabs` leaves exactly one sheet per name
Q1..Q10, removes no sheet of any other name (their multiplicity is
untouched), and running it twice gives the same sheet list as running it
once. -/
theorem c10_create_question_tabs_idempotent (names : List String)
    (h : names.Nodup) :
    (∀ nm ∈ questionTabNames, (create_question_tabs names).count nm = 1) ∧
    (∀ nm, nm ∉ questionTabNames →
      (create_question_tabs names).count nm = names.count nm) ∧
    create_question_tabs (create_question_tabs names) = create_question_tabs names := by
  have htnd : questionTabNames.Nodup := by decide
  have hnf : create_question_tabs names = eraseAll names questionTabNames ++ questionTabNames :=
    create_question_tabs_normal questionTabNames names htnd
  refine ⟨?_, ?_, ?_⟩
  · intro nm hnm
    rw [hnf, List.count_append,
      List.count_eq_zero.2 (not_mem_eraseAll questionTabNames names nm h hnm),
      List.count_eq_one_of_mem htnd hnm]
  · intro nm hnm
    rw [hnf, List.count_append,
      eraseAll_count_of_not_mem questionTabNames names nm hnm,
      List.count_eq_zero.2 hnm, Nat.add_zero]
  · rw [hnf, create_question_tabs,
      create_question_tabs_normal questionTabNames _ htnd,
      eraseAll_of_disjoint questionTabNames (eraseAll names questionTabNames) htnd
        (fun n hn => not_mem_eraseAll questionTabNames names n h hn)]

/-- C10 witness on a workbook that already holds a stale "Q3" between other
sheets. -/
theorem c10_witness :
    (create_question_tabs ["raw data", "Q3", "data map"]).count "Q3" = 1 ∧
    (create_question_tabs ["raw data", "Q3", "data map"]).count "data map" =
      (["raw data", "Q3", "data map"] : List String).count "data map" ∧
    create_question_tabs (create_question_tabs ["raw data", "Q3", "data map"]) =
      create_question_tabs ["raw data", "Q3", "data map"] :=
  ⟨(c10_create_question_tabs_idempotent ["raw data", "Q3", "data map"]
      (by decide)).1 "Q3" (by decide),
    (c10_create_question_tabs_idempotent ["raw data", "Q3", "data map"]
      (by decide)).2.1 "data map" (by decide),
    (c10_create_question_tabs_idempotent ["raw data", "Q3", "data map"]
      (by decide)).2.2⟩

/-- C4: each data-map marker lookup (question text, column-L text, section
number, and the column-H type signature, the latter skipping "System" rows)
returns the value projected from the lowest-index row from row 4 on whose
trimmed column-G value equals `str(question_number)` — `List.find?` over the
rows in scan order — and `none` when no row matches.  (The lookups are pure
functions of the worksheet, so re-running them on an unchanged worksheet is
definitionally the same result.) -/
theorem c4_marker_lookups_first_match (rows : List DataMapRow) (q : Nat) :
    find_question_text_from_data_map rows q = (rows.find? (gMatch q)).bind projC ∧
    find_column_l_text_from_data_map rows q = (rows.find? (gMatch q)).bind projL ∧
    find_section_number_from_data_map rows q = (rows.find? (gMatch q)).bind projN ∧
    find_question_column_h_text rows 4 q =
      ((rows.enumFrom 4).find? fun p => gMatch q p.2).bind
        (fun p => projH q p.1 p.2) :=
  ⟨find_question_text_eq rows q, find_column_l_text_eq rows q,
    find_section_number_eq rows q, find_question_column_h_eq rows 4 q⟩

end SurveyProc
